import Mathlib

/-!
Shallow embedding of the Storybook client (static/js/state.js, static/js/api.js,
the WebSocket client, the main application file, and static/js/world-bible.js),
together with proofs about the embedded operations.

JavaScript values are modelled by `Json`; a JS object's property table is an
association list in insertion order; an absent property is `Option.none`.
-/

namespace Storybook

/-- JavaScript/JSON values, as far as the client code inspects them. -/
inductive Json where
  | null : Json
  | bool (b : Bool) : Json
  | num (n : Int) : Json
  | str (s : String) : Json
  | arr (elems : List Json) : Json
  | obj (fields : List (String × Json)) : Json

/-- Property read on a JS object: first binding of the key in the table. -/
def lookupProp {α : Type} : List (String × α) → String → Option α
  | [], _ => none
  | (k, v) :: rest, key => if k = key then some v else lookupProp rest key

/-- Property assignment `o[key] = v` on a JS object: overwrite in place, or
append a new binding when the key is absent (JS insertion-order semantics). -/
def setProp {α : Type} : List (String × α) → String → α → List (String × α)
  | [], key, v => [(key, v)]
  | (k, w) :: rest, key, v =>
    if k = key then (k, v) :: rest else (k, w) :: setProp rest key v

/-- JS truthiness of a value, for the `if (x)` tests the client performs. -/
def Json.truthy : Json → Bool
  | Json.null => false
  | Json.bool b => b
  | Json.num n => n != 0
  | Json.str s => s != ""
  | Json.arr _ => true
  | Json.obj _ => true

/-- JS truthiness of a possibly absent property (`undefined` is falsy). -/
def truthyProp (v : Option Json) : Bool :=
  match v with
  | none => false
  | some j => j.truthy

/-- Property read `j.f` on a value: `undefined` (`none`) unless `j` is an
object carrying the field. -/
def Json.getField : Json → String → Option Json
  | Json.obj fields, key => lookupProp fields key
  | _, _ => none

mutual

/-- JS `String(x)` coercion, used by `new Error(x)` for its message. -/
def Json.jsToString : Json → String
  | Json.null => "null"
  | Json.bool b => if b then "true" else "false"
  | Json.num n => toString n
  | Json.str s => s
  | Json.arr elems => Json.jsJoinComma elems
  | Json.obj _ => "[object Object]"

/-- JS `Array.prototype.toString`: comma join, with null elements blank. -/
def Json.jsJoinComma : List Json → String
  | [] => ""
  | [Json.null] => ""
  | [x] => Json.jsToString x
  | Json.null :: rest => "," ++ Json.jsJoinComma rest
  | x :: rest => Json.jsToString x ++ "," ++ Json.jsJoinComma rest

end

/-! ## The State store (static/js/state.js)

`State` holds a mutable key-value table `_data` and a list `_listeners` of
change callbacks.  A listener is modelled by an identifier plus a predicate
saying on which arguments the callback would throw; an invocation of a
listener is recorded as a `Call`. -/

/-- A callback registered through `State.onChange`. -/
structure Listener (V : Type) where
  id : Nat
  /-- on which `(key, value)` argument pairs the callback throws -/
  throwsOn : String → Option V → Bool

/-- One invocation of a listener: the arguments it received and whether it
threw (the throw is swallowed by the `try/catch` in `_notify`). -/
structure Call (V : Type) where
  listenerId : Nat
  key : String
  value : Option V
  threw : Bool

/-- The `State` object: its `_data` table and its `_listeners` array. -/
structure StateObj (V : Type) where
  data : List (String × V)
  listeners : List (Listener V)

namespace State

/-- The source's `get(key) { return this._data[key]; }`. -/
def get {V : Type} (st : StateObj V) (key : String) : Option V :=
  lookupProp st.data key

/-- The source's `onChange(fn) { this._listeners.push(fn); }`. -/
def onChange {V : Type} (st : StateObj V) (fn : Listener V) : StateObj V :=
  { st with listeners := st.listeners ++ [fn] }

/-- The loop body of `_notify`: `for (const fn of this._listeners) {
try { fn(key, this._data[key]); } catch(e) { console.error(...); } }`.
Because each call is wrapped in its own `try/catch`, a throwing listener
does not stop the loop: the recursion continues past it unconditionally. -/
def notifyLoop {V : Type} : List (Listener V) → String → Option V → List (Call V)
  | [], _, _ => []
  | fn :: rest, key, v =>
    { listenerId := fn.id, key := key, value := v, threw := fn.throwsOn key v } ::
      notifyLoop rest key v

/-- The source's `_notify(key)`: every listener is called with
`(key, this._data[key])`. -/
def notify {V : Type} (st : StateObj V) (key : String) : List (Call V) :=
  notifyLoop st.listeners key (lookupProp st.data key)

/-- The source's `set(key, value) { this._data[key] = value; this._notify(key); }`.
Returns the updated store together with the listener invocations performed. -/
def set {V : Type} (st : StateObj V) (key : String) (v : V) :
    StateObj V × List (Call V) :=
  let st2 : StateObj V := { st with data := setProp st.data key v }
  (st2, notify st2 key)

end State

/-! Basic lemmas about the property table. -/

theorem lookupProp_setProp_same {α : Type} (l : List (String × α)) (k : String) (v : α) :
    lookupProp (setProp l k v) k = some v := by
  induction l with
  | nil => simp [setProp, lookupProp]
  | cons hd tl ih =>
    obtain ⟨k2, w⟩ := hd
    by_cases h : k2 = k
    · simp [setProp, lookupProp, h]
    · simp [setProp, lookupProp, h, ih]

theorem lookupProp_setProp_other {α : Type} (l : List (String × α)) (k k2 : String)
    (v : α) (h : k2 ≠ k) : lookupProp (setProp l k v) k2 = lookupProp l k2 := by
  have hk : ¬ k = k2 := fun h2 => h h2.symm
  induction l with
  | nil => simp [setProp, lookupProp, hk]
  | cons hd tl ih =>
    obtain ⟨k3, w⟩ := hd
    by_cases h3 : k3 = k
    · subst h3
      simp [setProp, lookupProp, hk]
    · simp only [setProp, if_neg h3]
      by_cases h4 : k3 = k2
      · simp [lookupProp, h4]
      · simp [lookupProp, h4, ih]

theorem notifyLoop_eq_map {V : Type} (fns : List (Listener V)) (key : String)
    (v : Option V) :
    State.notifyLoop fns key v =
      fns.map (fun fn =>
        { listenerId := fn.id, key := key, value := v,
          threw := fn.throwsOn key v }) := by
  induction fns with
  | nil => rfl
  | cons fn rest ih => simp [State.notifyLoop, ih]

/-- C1: the State store is last-write-wins with a get/set round trip:
`State.get k` after `State.set k v` returns `v`, and after two successive
writes `set k v1; set k v2` a `get k` returns `v2`, whatever `v1` was. -/
theorem state_lastWriteWins {V : Type} (st : StateObj V) (k : String) (v v1 v2 : V) :
    State.get (State.set st k v).fst k = some v ∧
    State.get (State.set (State.set st k v1).fst k v2).fst k = some v2 := by
  constructor
  · simp [State.get, State.set, lookupProp_setProp_same]
  · simp [State.get, State.set, lookupProp_setProp_same]

/-- C6: every `State.set k v` invokes every registered listener, in
registration order, with the key `k` and the stored value `v`; whether any
listener throws (`threw`) has no effect on the calls that are made, so an
exception in one listener never prevents the remaining listeners from
running. -/
theorem state_set_notifies_all_listeners {V : Type} (st : StateObj V)
    (k : String) (v : V) :
    (State.set st k v).snd =
      st.listeners.map (fun fn =>
        { listenerId := fn.id, key := k, value := some v,
          threw := fn.throwsOn k (some v) }) := by
  show State.notifyLoop st.listeners k (lookupProp (setProp st.data k v) k) = _
  rw [lookupProp_setProp_same, notifyLoop_eq_map]

/-! ## The REST client (static/js/api.js)

`_fetch` awaits `fetch(url, opts)`; the resulting `Response` is modelled by
its `ok` flag, its `statusText`, and the outcome of `res.json()`:
`some body` when the body parses as JSON, `none` when `res.json()` rejects. -/

/-- A value thrown by the client: `new Error(message)`, the rejection of
`res.json()` on an unparseable body, or the TypeError raised by reading a
property of `null`. -/
inductive JSError where
  | error (message : String)
  | jsonSyntaxError
  | typeErrorOfNull

/-- JS property access `x.f` as an expression: reading a property of `null`
throws a TypeError; on a non-null non-object value it yields `undefined`;
on an object it looks the field up. -/
def jsGetProp (j : Json) (key : String) : Except JSError (Option Json) :=
  match j with
  | Json.null => Except.error JSError.typeErrorOfNull
  | Json.obj fields => Except.ok (lookupProp fields key)
  | _ => Except.ok none

/-- The observable part of a `fetch` response. -/
structure Response where
  ok : Bool
  statusText : String
  /-- result of `res.json()`: `none` models the rejected promise -/
  jsonBody : Option Json

/-- The source's `API._fetch`, after the response arrived:
if `!res.ok`, `err` is `await res.json().catch(() => ({ detail: res.statusText }))`
and the function throws `new Error(err.detail || 'Request failed')` — where
evaluating `err.detail` itself throws a TypeError when `err` is `null`
(a non-ok body that parses to JSON null); otherwise it returns `res.json()`,
whose rejection propagates. -/
def API.fetchResult (res : Response) : Except JSError Json :=
  if !res.ok then
    let err : Json :=
      match res.jsonBody with
      | some j => j
      | none => Json.obj [("detail", Json.str res.statusText)]
    match jsGetProp err "detail" with
    | Except.error e => Except.error e
    | Except.ok (some d) =>
      if d.truthy then Except.error (JSError.error d.jsToString)
      else Except.error (JSError.error "Request failed")
    | Except.ok none => Except.error (JSError.error "Request failed")
  else
    match res.jsonBody with
    | some j => Except.ok j
    | none => Except.error JSError.jsonSyntaxError

/-- The message `_fetch` gives the thrown `new Error` for a non-ok response
whose body does not parse to JSON null: the body's `detail` field when the
body parses and `detail` is present and truthy, the status text when the
body does not parse and the status text is nonempty, and `"Request failed"`
otherwise. -/
def fetchFailureMessage (res : Response) : String :=
  match res.jsonBody with
  | some body =>
    match body.getField "detail" with
    | some d => if d.truthy then d.jsToString else "Request failed"
    | none => "Request failed"
  | none => if res.statusText ≠ "" then res.statusText else "Request failed"

/-- C2, counterexample. The claim fails on the code in four places:
an ok response with an unparseable body makes `return res.json()` propagate
the parse rejection, so `_fetch` throws although `res.ok` is true; a non-ok
response whose body carries a falsy `detail` (here the empty string) yields
the message `"Request failed"`, not the `detail` field; a non-ok response
with an unparseable body and empty status text also yields
`"Request failed"`, not the status text; and a non-ok response whose body
parses to JSON null makes `err.detail` throw a TypeError instead of the
claimed `Error`. -/
theorem fetch_ok_throws_counterexample :
    API.fetchResult (Response.mk true "OK" none) =
      Except.error JSError.jsonSyntaxError ∧
    API.fetchResult
        (Response.mk false "Bad Request" (some (Json.obj [("detail", Json.str "")]))) =
      Except.error (JSError.error "Request failed") ∧
    API.fetchResult (Response.mk false "" none) =
      Except.error (JSError.error "Request failed") ∧
    API.fetchResult (Response.mk false "Server Error" (some Json.null)) =
      Except.error JSError.typeErrorOfNull := by
  refine ⟨rfl, ?_, ?_, ?_⟩ <;> rfl

theorem jsGetProp_of_ne_null (j : Json) (key : String) (h : j ≠ Json.null) :
    jsGetProp j key = Except.ok (j.getField key) := by
  cases j with
  | null => exact absurd rfl h
  | bool b => rfl
  | num n => rfl
  | str s => rfl
  | arr elems => rfl
  | obj fields => rfl

/-- C2, amended: `API._fetch` throws exactly when the response is not ok or
the ok response's body is not parseable JSON.  When `res.ok` is false and
the body parses to JSON null, the TypeError from evaluating `err.detail`
propagates; when `res.ok` is false otherwise, it throws `new Error` with
message `fetchFailureMessage res`; when `res.ok` is true it returns the
parsed body if the body parses, and propagates the `res.json()` rejection
otherwise. -/
theorem fetch_error_characterization (res : Response) :
    ((∃ e, API.fetchResult res = Except.error e) ↔
      (res.ok = false ∨ res.jsonBody = none)) ∧
    (res.ok = false → res.jsonBody = some Json.null →
      API.fetchResult res = Except.error JSError.typeErrorOfNull) ∧
    (res.ok = false → res.jsonBody ≠ some Json.null →
      API.fetchResult res = Except.error (JSError.error (fetchFailureMessage res))) ∧
    (∀ j, res.ok = true → res.jsonBody = some j →
      API.fetchResult res = Except.ok j) ∧
    (res.ok = true → res.jsonBody = none →
      API.fetchResult res = Except.error JSError.jsonSyntaxError) := by
  obtain ⟨ok, st, body⟩ := res
  cases ok with
  | false =>
    have hnullcase : body = some Json.null →
        API.fetchResult (Response.mk false st body) =
          Except.error JSError.typeErrorOfNull := by
      intro hnull
      subst hnull
      rfl
    have hmsgcase : body ≠ some Json.null →
        API.fetchResult (Response.mk false st body) =
          Except.error (JSError.error
            (fetchFailureMessage (Response.mk false st body))) := by
      intro hnn
      cases body with
      | none =>
        by_cases hst : st = ""
        · subst hst
          rfl
        · simp [API.fetchResult, fetchFailureMessage, jsGetProp, Json.getField,
            lookupProp, Json.truthy, hst, Json.jsToString]
      | some j =>
        have hj : j ≠ Json.null := by
          intro h
          exact hnn (by rw [h])
        simp only [API.fetchResult, fetchFailureMessage, Bool.not_false, if_true,
          jsGetProp_of_ne_null _ _ hj]
        cases hd : Json.getField j "detail" with
        | none => rfl
        | some d =>
          by_cases ht : d.truthy
          · simp [ht]
          · simp [ht]
    refine ⟨⟨fun _ => Or.inl rfl, fun _ => ?_⟩, fun _ h => hnullcase h,
      fun _ h => hmsgcase h, ?_, ?_⟩
    · by_cases hb : body = some Json.null
      · exact ⟨JSError.typeErrorOfNull, hnullcase hb⟩
      · exact ⟨JSError.error (fetchFailureMessage (Response.mk false st body)),
          hmsgcase hb⟩
    · intro j h _
      simp at h
    · intro h
      simp at h
  | true =>
    cases body with
    | none =>
      refine ⟨⟨fun _ => Or.inr rfl, fun _ => ⟨JSError.jsonSyntaxError, rfl⟩⟩,
        ?_, ?_, ?_, fun _ _ => rfl⟩
      · intro h
        simp at h
      · intro h
        simp at h
      · intro j _ hj
        simp at hj
    | some j =>
      refine ⟨⟨?_, ?_⟩, ?_, ?_, ?_, ?_⟩
      · rintro ⟨e, he⟩
        simp [API.fetchResult] at he
      · rintro (h | h) <;> simp at h
      · intro h
        simp at h
      · intro h
        simp at h
      · intro j2 _ hj2
        simp only [Option.some.injEq] at hj2
        subst hj2
        rfl
      · intro _ hj
        simp at hj

/-- C2, witness for `fetch_error_characterization` at concrete responses. -/
theorem fetch_error_characterization_witness :
    API.fetchResult
        (Response.mk false "NF" (some (Json.obj [("detail", Json.str "boom")]))) =
      Except.error (JSError.error "boom") ∧
    API.fetchResult (Response.mk true "OK" (some (Json.num 7))) =
      Except.ok (Json.num 7) ∧
    API.fetchResult (Response.mk false "ISE" (some Json.null)) =
      Except.error JSError.typeErrorOfNull := by
  refine ⟨?_, ?_, ?_⟩
  · have h := (fetch_error_characterization
      (Response.mk false "NF" (some (Json.obj [("detail", Json.str "boom")])))).2.2.1
      rfl (by simp)
    simpa [fetchFailureMessage, Json.getField, lookupProp, Json.truthy,
      Json.jsToString] using h
  · exact (fetch_error_characterization
      (Response.mk true "OK" (some (Json.num 7)))).2.2.2.1 (Json.num 7) rfl rfl
  · exact (fetch_error_characterization
      (Response.mk false "ISE" (some Json.null))).2.1 rfl rfl

/-! ## The WebSocket client

`WS` keeps an array `_handlers`; `WS.connect` installs an `onmessage`
callback that parses the payload and feeds it to every handler:
`try { const data = JSON.parse(e.data); for (const fn of this._handlers) fn(data); }
catch(err) { console.error(...); }`.
A handler is modelled like a listener: an identifier plus the arguments on
which it would throw; the result of `JSON.parse(e.data)` is modelled by an
`Option Json` (`none` when the payload is not valid JSON). -/

/-- A callback registered through `WS.onMessage`. -/
structure WSHandler where
  id : Nat
  throwsOn : Json → Bool

/-- One invocation of a WS handler. -/
structure WSCall where
  handlerId : Nat
  data : Json

/-- The `WS` object: its `_handlers` array. -/
structure WSClient where
  handlers : List WSHandler

/-- The source's `onMessage(fn) { this._handlers.push(fn); }`. -/
def WS.onMessage (ws : WSClient) (fn : WSHandler) : WSClient :=
  { ws with handlers := ws.handlers ++ [fn] }

/-- The loop `for (const fn of this._handlers) fn(data);` inside the single
`try` block: there is no per-handler catch, so a throwing handler aborts
the loop; the exception is then caught by the surrounding `catch`.  Returns
the calls made and whether an exception was raised inside the loop. -/
def WS.dispatchLoop : List WSHandler → Json → List WSCall × Bool
  | [], _ => ([], false)
  | fn :: rest, data =>
    if fn.throwsOn data then ([WSCall.mk fn.id data], true)
    else
      let r := WS.dispatchLoop rest data
      (WSCall.mk fn.id data :: r.fst, r.snd)

/-- The outcome of one `onmessage` event: the handler calls that were made
and whether an exception escaped the callback. -/
structure WSMessageOutcome where
  calls : List WSCall
  escaped : Bool

/-- The `onmessage` callback installed by `WS.connect`: `JSON.parse` failure
skips the loop, and any exception (parse or handler) is swallowed by the
`catch`, so nothing ever escapes. -/
def WS.onmessage (ws : WSClient) (parsed : Option Json) : WSMessageOutcome :=
  match parsed with
  | none => WSMessageOutcome.mk [] false
  | some data => WSMessageOutcome.mk (WS.dispatchLoop ws.handlers data).fst false

/-- The handlers actually reached on a message, in registration order: every
handler up to and including the first one that throws on the parsed value. -/
def callsUpToFirstThrow : List WSHandler → Json → List WSCall
  | [], _ => []
  | fn :: rest, data =>
    WSCall.mk fn.id data ::
      (if fn.throwsOn data then [] else callsUpToFirstThrow rest data)

theorem dispatchLoop_fst_of_nothrow (hs : List WSHandler) (j : Json)
    (h : ∀ fn ∈ hs, fn.throwsOn j = false) :
    (WS.dispatchLoop hs j).fst = hs.map (fun fn => WSCall.mk fn.id j) := by
  induction hs with
  | nil => rfl
  | cons fn rest ih =>
    have hfn : fn.throwsOn j = false := h fn (by simp)
    have ihrest := ih (fun g hg => h g (by simp [hg]))
    simp [WS.dispatchLoop, hfn, ihrest]

/-- C3, counterexample: with two registered handlers of which the first
throws on the parsed message, the second handler is never invoked, so the
parsed value is not passed to every registered handler. -/
theorem ws_dispatch_counterexample :
    ¬ (∀ (ws : WSClient) (j : Json), ∀ fn ∈ ws.handlers,
        WSCall.mk fn.id j ∈ (WS.onmessage ws (some j)).calls) := by
  intro h
  have h2 := h (WSClient.mk [WSHandler.mk 0 (fun _ => true),
      WSHandler.mk 1 (fun _ => false)]) Json.null
    (WSHandler.mk 1 (fun _ => false)) (by simp)
  simp [WS.onmessage, WS.dispatchLoop, WSCall.mk.injEq] at h2

/-- C3, amended: for every incoming WebSocket message, nothing escapes the
`onmessage` callback; if the payload does not parse as JSON no handler is
invoked; if it parses, the parsed value is passed, in registration order, to
every handler up to and including the first one that throws — in particular
to every registered handler when none throws.  Registration through
`WS.onMessage` appends to the handler list, so registration order is list
order. -/
theorem ws_dispatch_characterization (ws : WSClient) (parsed : Option Json) :
    (WS.onmessage ws parsed).escaped = false ∧
    (parsed = none → (WS.onmessage ws parsed).calls = []) ∧
    (∀ j, parsed = some j →
      (WS.onmessage ws parsed).calls = callsUpToFirstThrow ws.handlers j) ∧
    (∀ j, parsed = some j → (∀ fn ∈ ws.handlers, fn.throwsOn j = false) →
      (WS.onmessage ws parsed).calls =
        ws.handlers.map (fun fn => WSCall.mk fn.id j)) ∧
    (∀ fn, (WS.onMessage ws fn).handlers = ws.handlers ++ [fn]) := by
  refine ⟨?_, ?_, ?_, ?_, fun fn => rfl⟩
  · cases parsed <;> rfl
  · intro h
    subst h
    rfl
  · intro j h
    subst h
    show (WS.dispatchLoop ws.handlers j).fst = callsUpToFirstThrow ws.handlers j
    induction ws.handlers with
    | nil => rfl
    | cons fn rest ih =>
      by_cases ht : fn.throwsOn j
      · simp [WS.dispatchLoop, callsUpToFirstThrow, ht]
      · simp [WS.dispatchLoop, callsUpToFirstThrow, ht, ih]
  · intro j h hnothrow
    subst h
    exact dispatchLoop_fst_of_nothrow ws.handlers j hnothrow

/-- C3, witness for `ws_dispatch_characterization` at a concrete client and
message. -/
theorem ws_dispatch_characterization_witness :
    (WS.onmessage (WSClient.mk [WSHandler.mk 4 (fun _ => false)]) none).calls = [] ∧
    (WS.onmessage (WSClient.mk [WSHandler.mk 4 (fun _ => false)])
        (some (Json.str "hi"))).calls = [WSCall.mk 4 (Json.str "hi")] := by
  constructor
  · exact (ws_dispatch_characterization
      (WSClient.mk [WSHandler.mk 4 (fun _ => false)]) none).2.1 rfl
  · have h := (ws_dispatch_characterization
      (WSClient.mk [WSHandler.mk 4 (fun _ => false)])
      (some (Json.str "hi"))).2.2.2.1 (Json.str "hi") rfl ?_
    · simpa using h
    · intro fn hfn
      simp at hfn
      subst hfn
      rfl

/-! ## breakdownScene (main application file)

`breakingDownScenes` is a JS `Set` of scene ids, modelled as a duplicate-free
list in insertion order.  `breakdownScene` bails out when the id is already
in the set, otherwise adds it, re-stores it, and calls
`API.breakdownScene(sceneId)`; in the `catch` branch it deletes the id
again. -/

/-- JS `Set.prototype.add`: no-op when the element is present, else append. -/
def jsSetAdd (s : List Int) (x : Int) : List Int :=
  if x ∈ s then s else s ++ [x]

/-- JS `Set.prototype.delete`: remove the element (present at most once). -/
def jsSetDelete (s : List Int) (x : Int) : List Int :=
  s.erase x

/-- The observable run of one `breakdownScene(sceneId)` call. -/
structure BreakdownRun where
  /-- whether `API.breakdownScene` was invoked -/
  apiCallMade : Bool
  /-- the value of `breakingDownScenes` at the moment of the API call -/
  setAtCall : Option (List Int)
  /-- the final value of `breakingDownScenes` -/
  final : List Int

/-- The source's `breakdownScene`, with the outcome of the awaited
`API.breakdownScene` call abstracted by `apiThrows`. -/
def breakdownScene (breakingDown : List Int) (sceneId : Int)
    (apiThrows : Bool) : BreakdownRun :=
  if sceneId ∈ breakingDown then
    BreakdownRun.mk false none breakingDown
  else
    let bd1 := jsSetAdd breakingDown sceneId
    if apiThrows then BreakdownRun.mk true (some bd1) (jsSetDelete bd1 sceneId)
    else BreakdownRun.mk true (some bd1) bd1

/-- C5: `breakdownScene` keeps `breakingDownScenes` consistent: a call for an
id already in the set makes no API request and changes nothing; otherwise
the id is in the set when the API call is made, and if the API call throws
the id is removed again, restoring the set to its value before the call. -/
theorem breakdownScene_set_consistency (bd : List Int) (sid : Int)
    (apiThrows : Bool) :
    (sid ∈ bd → breakdownScene bd sid apiThrows = BreakdownRun.mk false none bd) ∧
    (sid ∉ bd →
      (breakdownScene bd sid apiThrows).apiCallMade = true ∧
      (breakdownScene bd sid apiThrows).setAtCall = some (bd ++ [sid]) ∧
      sid ∈ bd ++ [sid] ∧
      (apiThrows = true → (breakdownScene bd sid apiThrows).final = bd) ∧
      (apiThrows = false → (breakdownScene bd sid apiThrows).final = bd ++ [sid])) := by
  constructor
  · intro h
    simp [breakdownScene, h]
  · intro h
    have hadd : jsSetAdd bd sid = bd ++ [sid] := by simp [jsSetAdd, h]
    have hdel : jsSetDelete (bd ++ [sid]) sid = bd := by
      simp [jsSetDelete, List.erase_append_right _ h, List.erase_cons_head]
    cases apiThrows with
    | true =>
      refine ⟨?_, ?_, by simp, fun _ => ?_, fun hc => by simp at hc⟩ <;>
        simp [breakdownScene, h, hadd, hdel]
    | false =>
      refine ⟨?_, ?_, by simp, fun hc => by simp at hc, fun _ => ?_⟩ <;>
        simp [breakdownScene, h, hadd]

/-- C5, witness for `breakdownScene_set_consistency` at concrete sets. -/
theorem breakdownScene_set_consistency_witness :
    breakdownScene [3, 5] 3 false = BreakdownRun.mk false none [3, 5] ∧
    (breakdownScene [3, 5] 7 true).final = [3, 5] := by
  constructor
  · exact (breakdownScene_set_consistency [3, 5] 3 false).1 (by decide)
  · exact ((breakdownScene_set_consistency [3, 5] 7 true).2 (by decide)).2.2.2.1 rfl

/-! ## esc (main application file) and _esc (static/js/world-bible.js)

`function esc(s) { return (s || '').replace(/&/g,'&amp;').replace(/</g,'&lt;')
.replace(/>/g,'&gt;').replace(/"/g,'&quot;'); }`.
Strings are modelled as `List Char`; a null or undefined argument is
`Option.none`.  `String.prototype.replace` with a global single-character
pattern replaces every occurrence, left to right. -/

/-- JS `s.replace(/c/g, repl)` for a single-character pattern. -/
def replaceChar (target : Char) (repl : List Char) : List Char → List Char
  | [] => []
  | c :: cs => (if c = target then repl else [c]) ++ replaceChar target repl cs

/-- The source's `esc` from the main application file. -/
def esc : Option (List Char) → List Char
  | none => []
  | some cs =>
    replaceChar '"' ("&quot;".toList)
      (replaceChar '>' ("&gt;".toList)
        (replaceChar '<' ("&lt;".toList)
          (replaceChar '&' ("&amp;".toList) cs)))

/-- The source's `_esc` from world-bible.js, textually identical to `esc`. -/
def wbEsc : Option (List Char) → List Char
  | none => []
  | some cs =>
    replaceChar '"' ("&quot;".toList)
      (replaceChar '>' ("&gt;".toList)
        (replaceChar '<' ("&lt;".toList)
          (replaceChar '&' ("&amp;".toList) cs)))

/-- What one input character contributes to the escaped output: its HTML
entity when it is markup-significant, itself otherwise. -/
def escChar (c : Char) : List Char :=
  if c = '&' then "&amp;".toList
  else if c = '<' then "&lt;".toList
  else if c = '>' then "&gt;".toList
  else if c = '"' then "&quot;".toList
  else [c]

theorem replaceChar_append (t : Char) (r xs ys : List Char) :
    replaceChar t r (xs ++ ys) = replaceChar t r xs ++ replaceChar t r ys := by
  induction xs with
  | nil => rfl
  | cons c cs ih => simp [replaceChar, ih]

theorem esc_some_eq_flatMap (cs : List Char) :
    esc (some cs) = (cs.map escChar).flatten := by
  induction cs with
  | nil => rfl
  | cons c cs ih =>
    show replaceChar '"' _ (replaceChar '>' _ (replaceChar '<' _
      (replaceChar '&' _ (c :: cs)))) = _
    rw [show replaceChar '&' ("&amp;".toList) (c :: cs) =
        (if c = '&' then "&amp;".toList else [c]) ++
          replaceChar '&' ("&amp;".toList) cs from rfl,
      replaceChar_append, replaceChar_append, replaceChar_append]
    have hstep : replaceChar '"' ("&quot;".toList) (replaceChar '>' ("&gt;".toList)
        (replaceChar '<' ("&lt;".toList) (if c = '&' then "&amp;".toList else [c]))) =
        escChar c := by
      by_cases h1 : c = '&'
      · subst h1
        decide
      · by_cases h2 : c = '<'
        · subst h2
          decide
        · by_cases h3 : c = '>'
          · subst h3
            decide
          · by_cases h4 : c = '"'
            · subst h4
              decide
            · simp [replaceChar, escChar, h1, h2, h3, h4]
    rw [hstep]
    simpa [escChar] using congrArg (escChar c ++ ·) ih

/-- C8: the HTML escaper is total and removes all markup-significant
characters: a null or undefined input gives the empty string; a string input
is escaped character by character, every occurrence of an ampersand, angle
bracket, or double quote replaced by its HTML entity; `_esc` agrees with
`esc` on every input; and the output never contains a raw lower-than,
greater-than, or double-quote character. -/
theorem esc_total_and_escapes_markup :
    esc none = [] ∧
    wbEsc none = [] ∧
    (∀ cs, esc (some cs) = (cs.map escChar).flatten) ∧
    (∀ s, esc s = wbEsc s) ∧
    (∀ s, ∀ c ∈ esc s, c ≠ '<' ∧ c ≠ '>' ∧ c ≠ '"') := by
  refine ⟨rfl, rfl, esc_some_eq_flatMap, ?_, ?_⟩
  · intro s
    cases s <;> rfl
  · intro s c hc
    cases s with
    | none => simp [esc] at hc
    | some cs =>
      rw [esc_some_eq_flatMap] at hc
      simp only [List.mem_flatten, List.mem_map] at hc
      obtain ⟨l, ⟨d, _, hd⟩, hcl⟩ := hc
      subst hd
      by_cases h1 : d = '&'
      · subst h1
        rw [show escChar '&' = ['&', 'a', 'm', 'p', ';'] from by decide] at hcl
        simp only [List.mem_cons, List.not_mem_nil, or_false] at hcl
        rcases hcl with rfl | rfl | rfl | rfl | rfl <;> refine ⟨by decide, by decide, by decide⟩
      · by_cases h2 : d = '<'
        · subst h2
          rw [show escChar '<' = ['&', 'l', 't', ';'] from by decide] at hcl
          simp only [List.mem_cons, List.not_mem_nil, or_false] at hcl
          rcases hcl with rfl | rfl | rfl | rfl <;> refine ⟨by decide, by decide, by decide⟩
        · by_cases h3 : d = '>'
          · subst h3
            rw [show escChar '>' = ['&', 'g', 't', ';'] from by decide] at hcl
            simp only [List.mem_cons, List.not_mem_nil, or_false] at hcl
            rcases hcl with rfl | rfl | rfl | rfl <;> refine ⟨by decide, by decide, by decide⟩
          · by_cases h4 : d = '"'
            · subst h4
              rw [show escChar '"' = ['&', 'q', 'u', 'o', 't', ';'] from by decide] at hcl
              simp only [List.mem_cons, List.not_mem_nil, or_false] at hcl
              rcases hcl with rfl | rfl | rfl | rfl | rfl | rfl <;> refine ⟨by decide, by decide, by decide⟩
            · simp only [escChar, h1, h2, h3, h4, if_false,
                List.mem_singleton] at hcl
              subst hcl
              exact ⟨h2, h3, h4⟩

/-- C8, witness for `esc_total_and_escapes_markup` on a concrete string. -/
theorem esc_total_and_escapes_markup_witness :
    esc (some ("a<b".toList)) = "a&lt;b".toList ∧
    ('a' ≠ '<' ∧ 'a' ≠ '>' ∧ 'a' ≠ '"') :=
  ⟨(esc_total_and_escapes_markup.2.2.1 ("a<b".toList)).trans (by decide),
    esc_total_and_escapes_markup.2.2.2.2 (some ['a']) 'a' (by decide)⟩

/-! ## HTTP requests issued through the API client

Each `API` method calls `this._fetch(url, opts)`; a request is recorded as
its method, url, and JSON body. -/

/-- One HTTP request issued by the client. -/
structure Request where
  method : String
  url : String
  body : Option Json

/-- The source's `API.updateShot(id, data)`:
`PATCH /api/shots/{id}` with body `JSON.stringify(data)`. -/
def API.updateShotRequest (id : Int) (data : Json) : Request :=
  Request.mk "PATCH" ("/api/shots/" ++ toString id) (some data)

/-- The source's `API.reorderShots(shotIds)`:
`POST /api/shots/reorder` with body `{ shot_ids: shotIds }`. -/
def API.reorderShotsRequest (shotIds : List Int) : Request :=
  Request.mk "POST" "/api/shots/reorder"
    (some (Json.obj [("shot_ids", Json.arr (shotIds.map Json.num))]))

/-! ## saveShotEdits (main application file)

The detail panel's `[data-field]` inputs are modelled by their `data-field`
attribute, their string value, and whether their `type` is `number`; the
`[data-palette-idx]` inputs by their values in document order.  `parseFloat`
(floating point) is kept abstract as a parameter. -/

/-- An input or textarea or select carrying a `data-field` attribute. -/
structure FieldInput where
  field : String
  value : String
  isNumberType : Bool

/-- The detail panel's editable content. -/
structure DetailPanel where
  fieldInputs : List FieldInput
  paletteValues : List String

/-- The loop body of `saveShotEdits`: `let val = input.value; if
(input.type === 'number') val = parseFloat(val);`. -/
def convertInput (parseFloat : String → Json) (i : FieldInput) : Json :=
  if i.isNumberType then parseFloat i.value else Json.str i.value

/-- The `data` object built by `saveShotEdits`: each input assigns
`data[input.dataset.field] = val`, then `data.color_palette` is set when
palette inputs exist. -/
def buildShotEditData (parseFloat : String → Json) (p : DetailPanel) :
    List (String × Json) :=
  let base := p.fieldInputs.foldl
    (fun acc i => setProp acc i.field (convertInput parseFloat i)) []
  if p.paletteValues.length > 0 then
    setProp base "color_palette" (Json.arr (p.paletteValues.map Json.str))
  else base

/-- The source's `saveShotEdits(shotId)`: the single `API.updateShot`
request it issues (its `catch` only toasts). -/
def saveShotEditsRequests (parseFloat : String → Json) (p : DetailPanel)
    (shotId : Int) : List Request :=
  [API.updateShotRequest shotId (Json.obj (buildShotEditData parseFloat p))]

/-- The value of the last panel input carrying a given `data-field` name,
converted the way `saveShotEdits` converts it. -/
def lastInputValue (parseFloat : String → Json) :
    List FieldInput → String → Option Json
  | [], _ => none
  | i :: rest, k =>
    match lastInputValue parseFloat rest k with
    | some v => some v
    | none => if i.field = k then some (convertInput parseFloat i) else none

theorem foldl_setProp_lookup (pf : String → Json) (inputs : List FieldInput)
    (acc : List (String × Json)) (k : String) :
    lookupProp (inputs.foldl
        (fun acc i => setProp acc i.field (convertInput pf i)) acc) k =
      match lastInputValue pf inputs k with
      | some v => some v
      | none => lookupProp acc k := by
  induction inputs generalizing acc with
  | nil => rfl
  | cons i rest ih =>
    rw [List.foldl_cons, ih]
    cases h : lastInputValue pf rest k with
    | some v => simp [lastInputValue, h]
    | none =>
      simp only [lastInputValue, h]
      by_cases hik : i.field = k
      · subst hik
        simp [lookupProp_setProp_same]
      · simp [hik, lookupProp_setProp_other _ _ _ _ (fun he => hik he.symm)]

theorem lookupProp_isSome_iff {α : Type} (l : List (String × α)) (k : String) :
    (∃ v, (k, v) ∈ l) ↔ (lookupProp l k).isSome := by
  induction l with
  | nil => simp [lookupProp]
  | cons hd tl ih =>
    obtain ⟨k2, w⟩ := hd
    by_cases h : k2 = k
    · subst h
      simp [lookupProp]
    · have h2 : k ≠ k2 := fun he => h he.symm
      simp [lookupProp, h, h2, Prod.mk.injEq, ih]

theorem lastInputValue_isSome_iff (pf : String → Json) (inputs : List FieldInput)
    (k : String) :
    (lastInputValue pf inputs k).isSome ↔ k ∈ inputs.map FieldInput.field := by
  induction inputs with
  | nil => simp [lastInputValue]
  | cons i rest ih =>
    simp only [List.map_cons, List.mem_cons]
    cases h : lastInputValue pf rest k with
    | some v =>
      rw [h] at ih
      simp [lastInputValue, h, ← ih]
    | none =>
      rw [h] at ih
      by_cases hik : i.field = k
      · simp [lastInputValue, h, hik]
      · have hik2 : ¬ k = i.field := fun he => hik he.symm
        simp [lastInputValue, h, hik, hik2, ← ih]

/-- C7: shot edits are persisted by field name via PATCH: `saveShotEdits`
issues exactly one request, a PATCH to `/api/shots/{id}`, whose body object
has exactly the `data-field` attribute names as keys (plus `color_palette`
when palette inputs exist); each field's value is the last matching input's
value, converted through `parseFloat` for number-typed inputs, and
`color_palette` is the array of palette input values. -/
theorem saveShotEdits_patch_by_field (pf : String → Json) (p : DetailPanel)
    (shotId : Int) :
    saveShotEditsRequests pf p shotId =
      [Request.mk "PATCH" ("/api/shots/" ++ toString shotId)
        (some (Json.obj (buildShotEditData pf p)))] ∧
    (∀ k, (∃ v, (k, v) ∈ buildShotEditData pf p) ↔
      (k ∈ p.fieldInputs.map FieldInput.field ∨
        (p.paletteValues ≠ [] ∧ k = "color_palette"))) ∧
    (∀ k, lookupProp (buildShotEditData pf p) k =
      if p.paletteValues ≠ [] ∧ k = "color_palette" then
        some (Json.arr (p.paletteValues.map Json.str))
      else lastInputValue pf p.fieldInputs k) := by
  have hlook : ∀ k, lookupProp (buildShotEditData pf p) k =
      if p.paletteValues ≠ [] ∧ k = "color_palette" then
        some (Json.arr (p.paletteValues.map Json.str))
      else lastInputValue pf p.fieldInputs k := by
    intro k
    show lookupProp (buildShotEditData pf p) k = _
    rw [buildShotEditData]
    cases hpal : p.paletteValues with
    | nil =>
      simp only [hpal, List.length_nil, Nat.lt_irrefl, if_false, ne_eq,
        not_true_eq_false, false_and, gt_iff_lt]
      rw [foldl_setProp_lookup]
      cases h : lastInputValue pf p.fieldInputs k <;> simp [lookupProp]
    | cons c cs =>
      rw [if_pos (by simp : (c :: cs : List String).length > 0)]
      by_cases hk : k = "color_palette"
      · subst hk
        rw [lookupProp_setProp_same, if_pos ⟨by simp, rfl⟩]
      · rw [lookupProp_setProp_other _ _ _ _ hk, foldl_setProp_lookup,
          if_neg (by simp [hk])]
        cases h : lastInputValue pf p.fieldInputs k <;> simp [lookupProp]
  refine ⟨rfl, ?_, hlook⟩
  intro k
  rw [lookupProp_isSome_iff, hlook k]
  by_cases hc : p.paletteValues ≠ [] ∧ k = "color_palette"
  · simp [hc]
  · rw [if_neg hc, lastInputValue_isSome_iff]
    constructor
    · exact Or.inl
    · rintro (h | h)
      · exact h
      · exact absurd h hc

/-! ## handleCreateStory (main application file)

The form's four named inputs are read and trimmed; when the trimmed title or
the trimmed raw text is empty the handler toasts an error and returns before
any other effect.  The effects of the `try/finally` block that follows a
successful validation (the `API.createStory` call, the form reset, the
loading-flag writes, `loadStories`, `selectStory`) are abstracted as
`submitOutcome`, since the claim constrains only the failed-validation
branch. -/

/-- JS `String.prototype.trim`: drop whitespace from both ends. -/
def jsTrim (s : String) : String :=
  String.mk
    (((s.toList.dropWhile Char.isWhitespace).reverse.dropWhile
      Char.isWhitespace).reverse)

/-- The create-story form's input values. -/
structure CreateStoryForm where
  title : String
  raw_text : String
  visual_style : String
  music_style : String

/-- The observable outcome of one `handleCreateStory` run. -/
structure CreateStoryOutcome where
  requests : List Request
  formWasReset : Bool
  /-- toasts shown, as (message, type) -/
  toasts : List (String × String)
  /-- the State store's `_data` table afterward -/
  state : List (String × Json)

/-- The source's `handleCreateStory`, up to its validation guard
`if (!title || !raw_text) { toast('Title and story text required', 'error');
return; }`. -/
def handleCreateStory (form : CreateStoryForm) (state0 : List (String × Json))
    (submitOutcome : CreateStoryOutcome) : CreateStoryOutcome :=
  let title := jsTrim form.title
  let raw_text := jsTrim form.raw_text
  if title = "" ∨ raw_text = "" then
    CreateStoryOutcome.mk [] false [("Title and story text required", "error")] state0
  else submitOutcome

/-- C10: story creation validates before any side effect: when the trimmed
title or the trimmed raw text is empty, `handleCreateStory` issues no
request, does not reset the form, leaves every State key unchanged, and only
shows an error toast. -/
theorem createStory_validation_no_side_effect (form : CreateStoryForm)
    (state0 : List (String × Json)) (submitOutcome : CreateStoryOutcome)
    (h : jsTrim form.title = "" ∨ jsTrim form.raw_text = "") :
    handleCreateStory form state0 submitOutcome =
      CreateStoryOutcome.mk [] false
        [("Title and story text required", "error")] state0 := by
  simp [handleCreateStory, h]

/-- C10, witness for `createStory_validation_no_side_effect` on a form whose
title is blank. -/
theorem createStory_validation_no_side_effect_witness :
    handleCreateStory (CreateStoryForm.mk "  " "Once upon a time" "" "")
        [("loading", Json.bool false)]
        (CreateStoryOutcome.mk [Request.mk "POST" "/api/stories" none] true [] []) =
      CreateStoryOutcome.mk [] false
        [("Title and story text required", "error")]
        [("loading", Json.bool false)] :=
  createStory_validation_no_side_effect _ _ _ (Or.inl (by decide))

/-! ## Drag-and-drop shot reordering (renderShotCards' ondrop handler)

The handler reads the dragged card's id (`fromId`) and the drop target's id
(`toId`), collects the ids of the displayed shot cards, and runs
`ids.splice(fromIdx, 1); ids.splice(toIdx, 0, fromId);` before posting the
list to `API.reorderShots`. -/

/-- JS `Array.prototype.indexOf`: index of the first occurrence, `-1` when
the element is absent. -/
def jsIndexOf (l : List Int) (x : Int) : Int :=
  if x ∈ l then (List.indexOf x l : Int) else -1

/-- JS `Array.prototype.splice` start-index normalisation: a negative start
counts from the end of the array, and the start is clamped to the length. -/
def jsSpliceStart (len : Nat) (start : Int) : Nat :=
  if start < 0 then ((len : Int) + start).toNat else min start.toNat len

/-- JS `arr.splice(start, 1)`: remove one element at the normalised start. -/
def jsSpliceDelete1 (l : List Int) (start : Int) : List Int :=
  let k := jsSpliceStart l.length start
  l.take k ++ l.drop (k + 1)

/-- JS `arr.splice(start, 0, x)`: insert `x` at the normalised start. -/
def jsSpliceInsert0 (l : List Int) (start : Int) (x : Int) : List Int :=
  let k := jsSpliceStart l.length start
  l.take k ++ x :: l.drop k

/-- The `ondrop` handler of a shot card: the requests it issues.  A drop of
a card onto itself returns before doing anything. -/
def shotCardOndrop (displayedIds : List Int) (fromId toId : Int) : List Request :=
  if fromId = toId then []
  else
    let ids := displayedIds
    let fromIdx := jsIndexOf ids fromId
    let toIdx := jsIndexOf ids toId
    let ids1 := jsSpliceDelete1 ids fromIdx
    let ids2 := jsSpliceInsert0 ids1 toIdx fromId
    [API.reorderShotsRequest ids2]

theorem jsSpliceStart_coe (len n : Nat) (h : n ≤ len) :
    jsSpliceStart len (n : Int) = n := by
  rw [jsSpliceStart, if_neg (by omega)]
  simp [h]

theorem insertIdx_eq_take_cons_drop {α : Type} (a : α) :
    ∀ (n : Nat) (l : List α), n ≤ l.length →
      l.insertIdx n a = l.take n ++ a :: l.drop n
  | 0, l, _ => by simp
  | n + 1, [], h => by simp at h
  | n + 1, b :: l, h => by
    rw [List.insertIdx_succ_cons, insertIdx_eq_take_cons_drop a n l (by simpa using h)]
    rfl

theorem insertIdx_perm_cons {α : Type} (a : α) :
    ∀ (n : Nat) (l : List α), n ≤ l.length → (l.insertIdx n a).Perm (a :: l)
  | 0, l, _ => by simp
  | n + 1, [], h => by simp at h
  | n + 1, b :: l, h => by
    rw [List.insertIdx_succ_cons]
    exact ((insertIdx_perm_cons a n l (by simpa using h)).cons b).trans
      (List.Perm.swap a b l)

/-- C9: drag-and-drop shot reordering sends a permutation: dropping card
`fromId` onto a distinct card `toId` issues exactly one `API.reorderShots`
request whose id list is the displayed ids with `fromId` removed from its
position and reinserted at `toId`'s former index — a permutation of the
displayed ids; dropping a card onto itself issues no request. -/
theorem ondrop_reorder_permutation (displayed : List Int) (fromId toId : Int)
    (hfrom : fromId ∈ displayed) (hto : toId ∈ displayed) :
    (fromId = toId → shotCardOndrop displayed fromId toId = []) ∧
    (fromId ≠ toId →
      shotCardOndrop displayed fromId toId =
        [API.reorderShotsRequest
          ((displayed.eraseIdx (List.indexOf fromId displayed)).insertIdx
            (List.indexOf toId displayed) fromId)] ∧
      ((displayed.eraseIdx (List.indexOf fromId displayed)).insertIdx
          (List.indexOf toId displayed) fromId).Perm displayed) := by
  constructor
  · intro h
    simp [shotCardOndrop, h]
  · intro hne
    have hfi : List.indexOf fromId displayed < displayed.length :=
      List.indexOf_lt_length.mpr hfrom
    have hti : List.indexOf toId displayed < displayed.length :=
      List.indexOf_lt_length.mpr hto
    have hids1 : jsSpliceDelete1 displayed (jsIndexOf displayed fromId) =
        displayed.eraseIdx (List.indexOf fromId displayed) := by
      rw [jsIndexOf, if_pos hfrom, jsSpliceDelete1,
        jsSpliceStart_coe _ _ hfi.le, List.eraseIdx_eq_take_drop_succ]
    have herase : displayed.eraseIdx (List.indexOf fromId displayed) =
        displayed.erase fromId := List.eraseIdx_indexOf_eq_erase fromId displayed
    have hlen1 : (displayed.eraseIdx (List.indexOf fromId displayed)).length =
        displayed.length - 1 := by
      rw [herase]
      exact List.length_erase_of_mem hfrom
    have htle : List.indexOf toId displayed ≤
        (displayed.eraseIdx (List.indexOf fromId displayed)).length := by
      omega
    have hids2 : jsSpliceInsert0
        (displayed.eraseIdx (List.indexOf fromId displayed))
        (jsIndexOf displayed toId) fromId =
        (displayed.eraseIdx (List.indexOf fromId displayed)).insertIdx
          (List.indexOf toId displayed) fromId := by
      rw [jsIndexOf, if_pos hto, jsSpliceInsert0, jsSpliceStart_coe _ _ htle,
        insertIdx_eq_take_cons_drop _ _ _ htle]
    constructor
    · rw [shotCardOndrop, if_neg hne]
      show [API.reorderShotsRequest (jsSpliceInsert0
        (jsSpliceDelete1 displayed (jsIndexOf displayed fromId))
        (jsIndexOf displayed toId) fromId)] = _
      rw [hids1, hids2]
    · refine ((insertIdx_perm_cons fromId _ _ htle).trans ?_)
      rw [herase]
      exact (List.perm_cons_erase hfrom).symm

/-- C9, witness for `ondrop_reorder_permutation` on a concrete card row. -/
theorem ondrop_reorder_permutation_witness :
    shotCardOndrop [10, 20, 30] 30 30 = [] ∧
    shotCardOndrop [10, 20, 30] 30 10 = [API.reorderShotsRequest [30, 10, 20]] := by
  constructor
  · exact (ondrop_reorder_permutation [10, 20, 30] 30 30 (by decide) (by decide)).1 rfl
  · have h := ((ondrop_reorder_permutation [10, 20, 30] 30 10 (by decide)
      (by decide)).2 (by decide)).1
    simpa using h

/-! ## handleWSMessage, the shot_progress branch (main application file)

The story tree held under the `currentStory` State key: a shot is modelled
by the three properties the branch writes (`generation_status`,
`error_message`, `current_image`), its `id`, and its remaining properties;
scenes, chapters and the story carry their lists plus remaining properties.
`findShot` returns the first shot of the traversal whose id matches, and the
branch mutates that shot in place; the mutation is modelled by a functional
update of the first match. -/

/-- A shot record, as the branch sees it. -/
structure Shot where
  id : Int
  generation_status : Json
  error_message : Option Json
  current_image : Option Json
  /-- the shot object's remaining properties -/
  fields : List (String × Json)

/-- A scene record. -/
structure Scene where
  id : Int
  shots : List Shot
  /-- the scene object's remaining properties -/
  fields : List (String × Json)

/-- A chapter record. -/
structure Chapter where
  scenes : List Scene
  /-- the chapter object's remaining properties -/
  fields : List (String × Json)

/-- A story record, the value of the `currentStory` State key. -/
structure Story where
  id : Int
  chapters : List Chapter
  /-- the story object's remaining properties -/
  fields : List (String × Json)

/-- In-place mutation of the first shot with a matching id in a shot list
(`findShot`'s innermost loop); `none` when no shot matches. -/
def updateFirstShotInShots (f : Shot → Shot) (sid : Int) :
    List Shot → Option (List Shot)
  | [] => none
  | sh :: rest =>
    if sh.id = sid then some (f sh :: rest)
    else (updateFirstShotInShots f sid rest).map (fun rest2 => sh :: rest2)

/-- `findShot`'s scene loop. -/
def updateFirstShotInScenes (f : Shot → Shot) (sid : Int) :
    List Scene → Option (List Scene)
  | [] => none
  | sc :: rest =>
    match updateFirstShotInShots f sid sc.shots with
    | some shots2 => some ({ sc with shots := shots2 } :: rest)
    | none => (updateFirstShotInScenes f sid rest).map (fun rest2 => sc :: rest2)

/-- `findShot`'s chapter loop. -/
def updateFirstShotInChapters (f : Shot → Shot) (sid : Int) :
    List Chapter → Option (List Chapter)
  | [] => none
  | ch :: rest =>
    match updateFirstShotInScenes f sid ch.scenes with
    | some scenes2 => some ({ ch with scenes := scenes2 } :: rest)
    | none => (updateFirstShotInChapters f sid rest).map (fun rest2 => ch :: rest2)

/-- `findShot(story, id)` followed by an in-place mutation of the found
shot; `none` when `findShot` returns null. -/
def updateFirstShotInStory (story : Story) (sid : Int) (f : Shot → Shot) :
    Option Story :=
  (updateFirstShotInChapters f sid story.chapters).map
    (fun chs => { story with chapters := chs })

/-- A `shot_progress` WebSocket message: `shot_id`, `status`, and the
optional `error_message` and `image` properties. -/
structure ShotProgressMsg where
  shot_id : Int
  status : Json
  error_message : Option Json
  image : Option Json

/-- The three assignments of the branch:
`shot.generation_status = data.status; if (data.error_message)
shot.error_message = data.error_message; if (data.image)
shot.current_image = data.image;`. -/
def applyShotProgressToShot (msg : ShotProgressMsg) (sh : Shot) : Shot :=
  { sh with
    generation_status := msg.status
    error_message :=
      if truthyProp msg.error_message then msg.error_message else sh.error_message
    current_image :=
      if truthyProp msg.image then msg.image else sh.current_image }

/-- The UI state the branch can touch: the `currentStory` State key and the
rest of the State store. -/
structure UIState where
  currentStory : Option Story
  /-- the other keys of the State store -/
  otherState : List (String × Json)

/-- The `shot_progress` branch of `handleWSMessage`: nothing happens without
a current story or when no shot matches; otherwise the found shot is patched
in place.  (The timer bookkeeping and re-rendering the branch also performs
touch no State data.) -/
def handleShotProgress (st : UIState) (msg : ShotProgressMsg) : UIState :=
  match st.currentStory with
  | none => st
  | some story =>
    match updateFirstShotInStory story msg.shot_id (applyShotProgressToShot msg) with
    | none => st
    | some story2 => { st with currentStory := some story2 }

/-- All shots of a story, in traversal order. -/
def storyShots (story : Story) : List Shot :=
  (story.chapters.map (fun ch => (ch.scenes.map (fun sc => sc.shots)).flatten)).flatten

/-- Structure-preserving map over every shot of a story: chapter, scene and
story records keep all their own data. -/
def mapShots (f : Shot → Shot) (story : Story) : Story :=
  { story with chapters := story.chapters.map (fun ch =>
      { ch with scenes := ch.scenes.map (fun sc =>
        { sc with shots := sc.shots.map f }) }) }

/-- The shot ids of a scene list, in traversal order. -/
def sceneShotIds : List Scene → List Int
  | [] => []
  | sc :: rest => sc.shots.map Shot.id ++ sceneShotIds rest

/-- The shot ids of a chapter list, in traversal order. -/
def chapterShotIds : List Chapter → List Int
  | [] => []
  | ch :: rest => sceneShotIds ch.scenes ++ chapterShotIds rest

theorem storyShots_map_id (story : Story) :
    (storyShots story).map Shot.id = chapterShotIds story.chapters := by
  show ((story.chapters.map _).flatten).map Shot.id = _
  induction story.chapters with
  | nil => rfl
  | cons ch rest ih =>
    simp only [List.map_cons, List.flatten_cons, List.map_append, ih,
      chapterShotIds]
    congr 1
    induction ch.scenes with
    | nil => rfl
    | cons sc rest2 ih2 =>
      simp only [List.map_cons, List.flatten_cons, List.map_append, ih2,
        sceneShotIds]

theorem mem_storyShots (story : Story) (sh : Shot) :
    sh ∈ storyShots story ↔
      ∃ ch ∈ story.chapters, ∃ sc ∈ ch.scenes, sh ∈ sc.shots := by
  constructor
  · intro h
    rcases List.mem_flatten.mp h with ⟨l, hl, hsh⟩
    rcases List.mem_map.mp hl with ⟨ch, hch, rfl⟩
    rcases List.mem_flatten.mp hsh with ⟨l2, hl2, hsh2⟩
    rcases List.mem_map.mp hl2 with ⟨sc, hsc, rfl⟩
    exact ⟨ch, hch, sc, hsc, hsh2⟩
  · rintro ⟨ch, hch, sc, hsc, hsh⟩
    exact List.mem_flatten.mpr ⟨_, List.mem_map.mpr ⟨ch, hch, rfl⟩,
      List.mem_flatten.mpr ⟨_, List.mem_map.mpr ⟨sc, hsc, rfl⟩, hsh⟩⟩

theorem mem_sceneShotIds {sid : Int} {scenes : List Scene}
    (h : ∃ sc ∈ scenes, ∃ sh ∈ sc.shots, sh.id = sid) :
    sid ∈ sceneShotIds scenes := by
  induction scenes with
  | nil => simp at h
  | cons sc rest ih =>
    obtain ⟨sc2, hsc2, sh, hsh, hid⟩ := h
    rcases List.mem_cons.mp hsc2 with h2 | h2
    · subst h2
      exact List.mem_append_left _ (List.mem_map.mpr ⟨sh, hsh, hid⟩)
    · exact List.mem_append_right _ (ih ⟨sc2, h2, sh, hsh, hid⟩)

theorem mem_chapterShotIds {sid : Int} {chapters : List Chapter}
    (h : ∃ ch ∈ chapters, ∃ sc ∈ ch.scenes, ∃ sh ∈ sc.shots, sh.id = sid) :
    sid ∈ chapterShotIds chapters := by
  induction chapters with
  | nil => simp at h
  | cons ch rest ih =>
    obtain ⟨ch2, hch2, sc, hsc, sh, hsh, hid⟩ := h
    rcases List.mem_cons.mp hch2 with h2 | h2
    · subst h2
      exact List.mem_append_left _ (mem_sceneShotIds ⟨sc, hsc, sh, hsh, hid⟩)
    · exact List.mem_append_right _ (ih ⟨ch2, h2, sc, hsc, sh, hsh, hid⟩)

theorem map_cond_shots_id (f : Shot → Shot) (sid : Int) (l : List Shot)
    (h : ∀ sh ∈ l, sh.id ≠ sid) :
    l.map (fun sh => if sh.id = sid then f sh else sh) = l := by
  induction l with
  | nil => rfl
  | cons sh rest ih =>
    simp only [List.map_cons, if_neg (h sh (by simp)),
      ih (fun s hs => h s (by simp [hs]))]

theorem map_cond_scenes_id (f : Shot → Shot) (sid : Int) (scenes : List Scene)
    (h : ∀ sc ∈ scenes, ∀ sh ∈ sc.shots, sh.id ≠ sid) :
    scenes.map (fun sc =>
      { sc with shots := sc.shots.map (fun sh => if sh.id = sid then f sh else sh) }) =
      scenes := by
  induction scenes with
  | nil => rfl
  | cons sc rest ih =>
    simp only [List.map_cons, map_cond_shots_id f sid sc.shots (h sc (by simp)),
      ih (fun s hs => h s (by simp [hs]))]

theorem map_cond_chapters_id (f : Shot → Shot) (sid : Int) (chapters : List Chapter)
    (h : ∀ ch ∈ chapters, ∀ sc ∈ ch.scenes, ∀ sh ∈ sc.shots, sh.id ≠ sid) :
    chapters.map (fun ch =>
      { ch with scenes := ch.scenes.map (fun sc =>
        { sc with shots := sc.shots.map (fun sh => if sh.id = sid then f sh else sh) }) }) =
      chapters := by
  induction chapters with
  | nil => rfl
  | cons ch rest ih =>
    simp only [List.map_cons, map_cond_scenes_id f sid ch.scenes (h ch (by simp)),
      ih (fun c hc => h c (by simp [hc]))]

theorem updateFirstShotInShots_eq_none (f : Shot → Shot) (sid : Int)
    (l : List Shot) (h : ∀ sh ∈ l, sh.id ≠ sid) :
    updateFirstShotInShots f sid l = none := by
  induction l with
  | nil => rfl
  | cons sh rest ih =>
    have h1 : ¬ sh.id = sid := h sh (by simp)
    have h2 := ih (fun s hs => h s (by simp [hs]))
    simp [updateFirstShotInShots, h1, h2]

theorem updateFirstShotInScenes_eq_none (f : Shot → Shot) (sid : Int)
    (scenes : List Scene) (h : ∀ sc ∈ scenes, ∀ sh ∈ sc.shots, sh.id ≠ sid) :
    updateFirstShotInScenes f sid scenes = none := by
  induction scenes with
  | nil => rfl
  | cons sc rest ih =>
    have h1 := updateFirstShotInShots_eq_none f sid sc.shots (h sc (by simp))
    have h2 := ih (fun s hs => h s (by simp [hs]))
    simp [updateFirstShotInScenes, h1, h2]

theorem updateFirstShotInChapters_eq_none (f : Shot → Shot) (sid : Int)
    (chapters : List Chapter)
    (h : ∀ ch ∈ chapters, ∀ sc ∈ ch.scenes, ∀ sh ∈ sc.shots, sh.id ≠ sid) :
    updateFirstShotInChapters f sid chapters = none := by
  induction chapters with
  | nil => rfl
  | cons ch rest ih =>
    have h1 := updateFirstShotInScenes_eq_none f sid ch.scenes (h ch (by simp))
    have h2 := ih (fun c hc => h c (by simp [hc]))
    simp [updateFirstShotInChapters, h1, h2]

theorem updateFirstShotInShots_of_nodup (f : Shot → Shot) (sid : Int)
    (l : List Shot) (hnd : (l.map Shot.id).Nodup)
    (hex : ∃ sh ∈ l, sh.id = sid) :
    updateFirstShotInShots f sid l =
      some (l.map (fun sh => if sh.id = sid then f sh else sh)) := by
  induction l with
  | nil => simp at hex
  | cons sh rest ih =>
    simp only [List.map_cons, List.nodup_cons] at hnd
    by_cases hsh : sh.id = sid
    · have hrest : ∀ s ∈ rest, s.id ≠ sid := by
        intro s hs hcontra
        refine hnd.1 ?_
        rw [hsh, ← hcontra]
        exact List.mem_map.mpr ⟨s, hs, rfl⟩
      simp [updateFirstShotInShots, hsh, map_cond_shots_id f sid rest hrest]
    · obtain ⟨s, hs0, hsid⟩ := hex
      rcases List.mem_cons.mp hs0 with hs | hs
      · exact absurd (hs ▸ hsid) hsh
      · simp [updateFirstShotInShots, hsh, ih hnd.2 ⟨s, hs, hsid⟩]

theorem updateFirstShotInScenes_of_nodup (f : Shot → Shot) (sid : Int)
    (scenes : List Scene) (hnd : (sceneShotIds scenes).Nodup)
    (hex : ∃ sc ∈ scenes, ∃ sh ∈ sc.shots, sh.id = sid) :
    updateFirstShotInScenes f sid scenes =
      some (scenes.map (fun sc =>
        { sc with shots := sc.shots.map (fun sh => if sh.id = sid then f sh else sh) })) := by
  induction scenes with
  | nil => simp at hex
  | cons sc rest ih =>
    rw [show sceneShotIds (sc :: rest) = sc.shots.map Shot.id ++ sceneShotIds rest
      from rfl, List.nodup_append] at hnd
    by_cases hsc : ∃ sh ∈ sc.shots, sh.id = sid
    · have hrest : ∀ sc2 ∈ rest, ∀ sh2 ∈ sc2.shots, sh2.id ≠ sid := by
        intro sc2 h2 sh2 h3 hid
        obtain ⟨sh, hmem, hidsh⟩ := hsc
        exact hnd.2.2 (List.mem_map.mpr ⟨sh, hmem, hidsh⟩)
          (mem_sceneShotIds ⟨sc2, h2, sh2, h3, hid⟩)
      have hupd := updateFirstShotInShots_of_nodup f sid sc.shots hnd.1 hsc
      simp [updateFirstShotInScenes, hupd, map_cond_scenes_id f sid rest hrest]
    · have hnosc : ∀ sh ∈ sc.shots, sh.id ≠ sid := by
        intro s hs hcontra
        exact hsc ⟨s, hs, hcontra⟩
      obtain ⟨sc2, hsc0, hex2⟩ := hex
      rcases List.mem_cons.mp hsc0 with hsc2 | hsc2
      · exact absurd (hsc2 ▸ hex2) hsc
      · have hnone := updateFirstShotInShots_eq_none f sid sc.shots hnosc
        have hih := ih hnd.2.1 ⟨sc2, hsc2, hex2⟩
        simp [updateFirstShotInScenes, hnone, hih,
          map_cond_shots_id f sid sc.shots hnosc]

theorem updateFirstShotInChapters_of_nodup (f : Shot → Shot) (sid : Int)
    (chapters : List Chapter) (hnd : (chapterShotIds chapters).Nodup)
    (hex : ∃ ch ∈ chapters, ∃ sc ∈ ch.scenes, ∃ sh ∈ sc.shots, sh.id = sid) :
    updateFirstShotInChapters f sid chapters =
      some (chapters.map (fun ch =>
        { ch with scenes := ch.scenes.map (fun sc =>
          { sc with shots := sc.shots.map (fun sh => if sh.id = sid then f sh else sh) }) })) := by
  induction chapters with
  | nil => simp at hex
  | cons ch rest ih =>
    rw [show chapterShotIds (ch :: rest) = sceneShotIds ch.scenes ++ chapterShotIds rest
      from rfl, List.nodup_append] at hnd
    by_cases hch : ∃ sc ∈ ch.scenes, ∃ sh ∈ sc.shots, sh.id = sid
    · have hrest : ∀ ch2 ∈ rest, ∀ sc2 ∈ ch2.scenes, ∀ sh2 ∈ sc2.shots, sh2.id ≠ sid := by
        intro ch2 h2 sc2 h3 sh2 h4 hid
        exact hnd.2.2 (mem_sceneShotIds hch)
          (mem_chapterShotIds ⟨ch2, h2, sc2, h3, sh2, h4, hid⟩)
      have hscupd := updateFirstShotInScenes_of_nodup f sid ch.scenes hnd.1 hch
      simp [updateFirstShotInChapters, hscupd,
        map_cond_chapters_id f sid rest hrest]
    · have hnoch : ∀ sc ∈ ch.scenes, ∀ sh ∈ sc.shots, sh.id ≠ sid := by
        intro sc hs sh hsh hcontra
        exact hch ⟨sc, hs, sh, hsh, hcontra⟩
      obtain ⟨ch2, hch0, hex2⟩ := hex
      rcases List.mem_cons.mp hch0 with hch2 | hch2
      · exact absurd (hch2 ▸ hex2) hch
      · have hnone := updateFirstShotInScenes_eq_none f sid ch.scenes hnoch
        have hih := ih hnd.2.1 ⟨ch2, hch2, hex2⟩
        simp [updateFirstShotInChapters, hnone, hih,
          map_cond_scenes_id f sid ch.scenes hnoch]

/-- C4: a `shot_progress` message patches only the shot it addresses.  The
per-shot patch sets `generation_status` to the message status, never touches
the shot's other properties, and changes `error_message` / `current_image`
only when the message carries those fields; without a current story, or when
no shot of the story has the message's `shot_id`, the state is unchanged;
and when the story's shot ids are distinct and a shot matches, the result
replaces only that shot by its patched version, keeping every other shot,
every scene, every chapter, the story's own fields, and every other State
key unchanged. -/
theorem shot_progress_patches_only_target (st : UIState) (msg : ShotProgressMsg) :
    (∀ sh : Shot,
      (applyShotProgressToShot msg sh).generation_status = msg.status ∧
      (applyShotProgressToShot msg sh).id = sh.id ∧
      (applyShotProgressToShot msg sh).fields = sh.fields ∧
      ((applyShotProgressToShot msg sh).error_message ≠ sh.error_message →
        msg.error_message ≠ none) ∧
      ((applyShotProgressToShot msg sh).current_image ≠ sh.current_image →
        msg.image ≠ none)) ∧
    (st.currentStory = none → handleShotProgress st msg = st) ∧
    (∀ story, st.currentStory = some story →
      (¬ ∃ sh ∈ storyShots story, sh.id = msg.shot_id) →
      handleShotProgress st msg = st) ∧
    (∀ story, st.currentStory = some story →
      ((storyShots story).map Shot.id).Nodup →
      (∃ sh ∈ storyShots story, sh.id = msg.shot_id) →
      handleShotProgress st msg =
        UIState.mk
          (some (mapShots
            (fun sh => if sh.id = msg.shot_id then applyShotProgressToShot msg sh else sh)
            story))
          st.otherState) := by
  refine ⟨?_, ?_, ?_, ?_⟩
  · intro sh
    refine ⟨rfl, rfl, rfl, ?_, ?_⟩
    · intro hch
      by_cases h : truthyProp msg.error_message
      · cases hm : msg.error_message with
        | none => rw [hm] at h; simp [truthyProp] at h
        | some e => simp [hm]
      · exact absurd (by simp [applyShotProgressToShot, if_neg h]) hch
    · intro hch
      by_cases h : truthyProp msg.image
      · cases hm : msg.image with
        | none => rw [hm] at h; simp [truthyProp] at h
        | some e => simp [hm]
      · exact absurd (by simp [applyShotProgressToShot, if_neg h]) hch
  · intro h
    simp [handleShotProgress, h]
  · intro story hst hnone
    have hforall : ∀ ch ∈ story.chapters, ∀ sc ∈ ch.scenes, ∀ sh ∈ sc.shots,
        sh.id ≠ msg.shot_id := by
      intro ch hch sc hsc sh hsh hcontra
      exact hnone ⟨sh, (mem_storyShots story sh).mpr ⟨ch, hch, sc, hsc, hsh⟩, hcontra⟩
    simp [handleShotProgress, hst, updateFirstShotInStory,
      updateFirstShotInChapters_eq_none _ _ _ hforall]
  · intro story hst hnd hex
    obtain ⟨sh, hmem, hid⟩ := hex
    obtain ⟨ch, hch, sc, hsc, hsh⟩ := (mem_storyShots story sh).mp hmem
    have hnd2 : (chapterShotIds story.chapters).Nodup := by
      rw [← storyShots_map_id]
      exact hnd
    have hupd := updateFirstShotInChapters_of_nodup
      (applyShotProgressToShot msg) msg.shot_id story.chapters hnd2
      ⟨ch, hch, sc, hsc, sh, hsh, hid⟩
    obtain ⟨cs, os⟩ := st
    simp only at hst
    subst hst
    simp [handleShotProgress, updateFirstShotInStory, hupd, mapShots]

/-- C4, witness for `shot_progress_patches_only_target` on a one-shot
story. -/
theorem shot_progress_patches_only_target_witness :
    handleShotProgress
        (UIState.mk
          (some (Story.mk 1
            [Chapter.mk [Scene.mk 2 [Shot.mk 5 (Json.str "pending") none none []] []] []]
            []))
          [("view", Json.str "timeline")])
        (ShotProgressMsg.mk 5 (Json.str "complete") none
          (some (Json.obj [("file_path", Json.str "img.png")]))) =
      UIState.mk
        (some (Story.mk 1
          [Chapter.mk [Scene.mk 2
            [Shot.mk 5 (Json.str "complete") none
              (some (Json.obj [("file_path", Json.str "img.png")])) []] []] []]
          []))
        [("view", Json.str "timeline")] := by
  have h := (shot_progress_patches_only_target
      (UIState.mk
        (some (Story.mk 1
          [Chapter.mk [Scene.mk 2 [Shot.mk 5 (Json.str "pending") none none []] []] []]
          []))
        [("view", Json.str "timeline")])
      (ShotProgressMsg.mk 5 (Json.str "complete") none
        (some (Json.obj [("file_path", Json.str "img.png")])))).2.2.2
    (Story.mk 1
      [Chapter.mk [Scene.mk 2 [Shot.mk 5 (Json.str "pending") none none []] []] []]
      []) rfl (by simp [storyShots])
    ⟨Shot.mk 5 (Json.str "pending") none none [], by simp [storyShots], rfl⟩
  rw [h]
  simp [mapShots, applyShotProgressToShot, truthyProp, Json.truthy]

end Storybook
